import Mathlib

/- Verification of the email-helper AI service core: the signal-fusion engine
   in server/ai/app/services/merge.py and the response cache / orchestrator in
   server/ai/app/api/routes.py.  Python strings are modelled as Lean strings
   (lists of Unicode code points).  Character classification (isalpha, isupper,
   islower, lower, upper) follows the ASCII fragment, which is the fragment the
   source exercises; the Python whitespace set used by str.strip and by the
   regex class \s is modelled by isPySpace below. -/

namespace EmailHelper

/-- Python whitespace (the set matched by str.isspace, str.strip and the
regex class \s for str patterns). -/
def isPySpace (c : Char) : Bool :=
  c = ' ' || c = '\t' || c = '\n' || c = '\r' || c.val = 11 || c.val = 12 ||
  (28 ≤ c.val && c.val ≤ 31) || c.val = 133 || c.val = 160 || c.val = 0x1680 ||
  (0x2000 ≤ c.val && c.val ≤ 0x200a) || c.val = 0x2028 || c.val = 0x2029 ||
  c.val = 0x202f || c.val = 0x205f || c.val = 0x3000

/-- Python str.strip(): drop whitespace from both ends. -/
def pyStripL (l : List Char) : List Char :=
  ((l.dropWhile isPySpace).reverse.dropWhile isPySpace).reverse

/-- Python substring test, pat in s (contiguous substring). -/
def containsSub (pat : List Char) : List Char → Bool
  | [] => pat.isPrefixOf ([] : List Char)
  | c :: rest => pat.isPrefixOf (c :: rest) || containsSub pat rest

/-- Python str.count for a doubled pair [a, a]: number of non-overlapping
occurrences, scanning left to right. -/
def countPair (a : Char) : List Char → Nat
  | x :: y :: rest =>
      if x = a && y = a then 1 + countPair a rest else countPair a (y :: rest)
  | _ => 0

/-- Group a string into maximal runs of case-insensitively equal consecutive
characters, keeping the first character of each run (in its original case)
and the run length.  This is how the regex (.)\1+ with re.IGNORECASE sees
the string: each match is a maximal run of length at least 2, and the
captured group is the first character of the run. -/
def ciRunsAux (c : Char) (n : Nat) : List Char → List (Char × Nat)
  | [] => [(c, n)]
  | d :: rest =>
      if d.toLower = c.toLower then ciRunsAux c (n + 1) rest
      else (c, n) :: ciRunsAux d 1 rest

def ciRuns : List Char → List (Char × Nat)
  | [] => []
  | c :: rest => ciRunsAux c 1 rest

/-- Python str.islower(): at least one cased character and no cased character
is uppercase (ASCII fragment: cased = alphabetic). -/
def pyIsLower (l : List Char) : Bool :=
  l.any Char.isAlpha && l.all (fun c => !c.isUpper)

/-- Python str.split(sep) for a single-character separator: empty string
yields [""]; separators delimit possibly empty fields. -/
def pySplitChar (sep : Char) : List Char → List (List Char)
  | [] => [[]]
  | c :: rest =>
      if c = sep then [] :: pySplitChar sep rest
      else
        match pySplitChar sep rest with
        | [] => [[c]]
        | p :: ps => (c :: p) :: ps

/- ===== merge.py : MergeService._is_garbage_text ===== -/

/-- The short-word whitelist of merge.py line 154. -/
def shortWhitelist : List String :=
  ["ok", "go", "we", "us", "no", "so", "on", "or", "an", "at", "by", "to",
   "up", "is", "it", "be", "do", "if", "in", "my", "he", "as", "of", "am"]

/-- Check 2 of _is_garbage_text (merge.py lines 157-166): re.search((.)\1{1,})
with IGNORECASE succeeds iff some case-insensitive run (of a non-newline
character, since . does not match a newline) has length at least 2; the loop
over re.findall((.)\1+) then returns True iff some matched run character has
its lowercased doubled pair occurring more than once in the lowercased line,
or some run of length at least 3 exists (that second test,
re.search((.)\1{2,}), does not depend on the loop variable).  The
allowed_doubles list computed by the source is never used. -/
def repeatNoise (clean : List Char) : Bool :=
  let runs := (ciRuns clean).filter (fun r => !(r.1 = '\n'))
  let ms := (runs.filter (fun r => 2 ≤ r.2)).map (fun r => r.1)
  let low := clean.map Char.toLower
  let run3 := runs.any (fun r => 3 ≤ r.2)
  ms.any (fun m => decide (1 < countPair m.toLower low) || run3)

/-- Check 3 of _is_garbage_text (merge.py lines 168-174): count the
upper/lower transitions between adjacent alphabetic characters. -/
def caseTransitions : List Char → Nat
  | a :: b :: rest =>
      (if a.isAlpha && b.isAlpha && (a.isUpper != b.isUpper) then 1 else 0) +
        caseTransitions (b :: rest)
  | _ => 0

/-- Check 4 of _is_garbage_text (merge.py lines 180-191): mixed-case strings
longer than 4 characters that are neither conventionally capitalized
(first upper, rest lower) nor all caps. -/
def weirdCase (clean : List Char) : Bool :=
  decide (4 < clean.length) &&
  clean.any Char.isUpper && clean.any Char.isLower &&
  !(match clean with
    | c :: rest => c.isUpper && pyIsLower rest
    | [] => false) &&
  !(clean == clean.map Char.toUpper)

/-- Check 5 of _is_garbage_text (merge.py lines 193-201): vowel ratio among
alphabetic characters.  The source compares the float vowels/letters with the
literals 0.1 and 0.8; for any string short enough to exist in memory those
float comparisons agree with the exact rational comparisons written here. -/
def vowelNoise (clean : List Char) : Bool :=
  let letters := (clean.filter Char.isAlpha).length
  let vowels := ((clean.map Char.toLower).filter
    (fun c => c = 'a' || c = 'e' || c = 'i' || c = 'o' || c = 'u')).length
  decide (3 < letters) &&
    (decide (10 * vowels < letters) || decide (4 * letters < 5 * vowels))

/-- MergeService._is_garbage_text (merge.py lines 139-203).  The guard
`if not text or len(text) < 2` collapses to the single length test, since an
empty string has length 0. -/
def isGarbageL (text : List Char) : Bool :=
  if text.length < 2 then true
  else
    let clean := pyStripL text
    if clean.contains ' ' && decide (10 < clean.length) then false
    else if clean.length ≤ 2 &&
        !(shortWhitelist.any (fun w => w.data == clean.map Char.toLower)) then true
    else if repeatNoise clean then true
    else if decide (clean.length < 12) && decide (2 < caseTransitions clean) then true
    else if weirdCase clean then true
    else if vowelNoise clean then true
    else false

def _is_garbage_text (s : String) : Bool := isGarbageL s.data

/- ===== merge.py : MergeService._extract_cta (lines 109-121) ===== -/

def cta_keywords : List String :=
  ["shop", "buy", "learn", "click", "order", "get", "sign", "register", "book"]

/-- The test applied to each line by _extract_cta: the stripped, lowercased
line has length strictly between 3 and 25 and contains a keyword. -/
def matchesCta (line : String) : Bool :=
  let text := (pyStripL line.data).map Char.toLower
  (decide (3 < text.length) && decide (text.length < 25)) &&
    cta_keywords.any (fun kw => containsSub kw.data text)

/-- MergeService._extract_cta: return the first matching line stripped of
surrounding whitespace, in its original case; the empty string if none. -/
def _extract_cta : List String → String
  | [] => ""
  | line :: rest =>
      if matchesCta line then String.mk (pyStripL line.data)
      else _extract_cta rest

/- ===== merge.py : MergeService._slugify (lines 123-137) ===== -/

/-- The replacement re.sub(r'\s+', '-', t): each maximal whitespace run
becomes a single hyphen.  The flag records whether the previous character
was part of a whitespace run already replaced. -/
def collapseWsAux (inWs : Bool) : List Char → List Char
  | [] => []
  | c :: rest =>
      if isPySpace c then
        if inWs then collapseWsAux true rest
        else '-' :: collapseWsAux true rest
      else c :: collapseWsAux false rest

def collapseWs (l : List Char) : List Char := collapseWsAux false l

/-- Python str.strip for the single character hyphen. -/
def rstripHyphens (l : List Char) : List Char :=
  (l.reverse.dropWhile (fun c => c == '-')).reverse

def stripHyphens (l : List Char) : List Char :=
  (rstripHyphens l).dropWhile (fun c => c == '-')

def _slugify (s : String) : String :=
  if s = "" then "image"
  else
    let t := s.data.map Char.toLower
    let t := t.filter (fun c => c.isLower || c.isDigit || isPySpace c || c = '-')
    let t := collapseWs t
    let t := stripHyphens t
    let t := if 50 < t.length then stripHyphens (t.take 50) else t
    String.mk t

/- ===== merge.py : MergeService._generate_filename_candidates (73-107) ===== -/

/-- The local helper validate of _generate_filename_candidates: slugify,
return None when the slug is empty, and keep only the first two
hyphen-delimited tokens. -/
def validate (s : String) : Option String :=
  let slug := _slugify s
  let parts := pySplitChar '-' slug.data
  if slug = "" then none
  else some (String.mk (List.intercalate ['-'] (parts.take 2)))

/-- The append pattern `if c and c not in candidates: candidates.append(c)`
for an optional candidate (None and the empty string are falsy). -/
def addCand (cands : List String) : Option String → List String
  | none => cands
  | some s => if s = "" || cands.contains s then cands else cands ++ [s]

def _generate_filename_candidates (tags : List String) (caption : String)
    (ocr_lines : List String) : List String :=
  let cands : List String := []
  let cands :=
    match tags with
    | [] => cands
    | t0 :: rest =>
      let cands := addCand cands (validate t0)
      match rest with
      | [] => cands
      | t1 :: _ => addCand cands (validate (t0 ++ " " ++ t1))
  let cands := if caption = "" then cands else addCand cands (validate caption)
  (ocr_lines.take 2).foldl
    (fun cs line =>
      if decide (3 < line.length) && decide (line.length < 20) then
        addCand cs (validate line)
      else cs)
    cands

/- ===== merge.py : MergeService._generate_alt_candidates (47-71) ===== -/

/-- The append pattern `if line not in candidates: candidates.append(line)`. -/
def addAlt (cands : List String) (s : String) : List String :=
  if cands.contains s then cands else cands ++ [s]

def _generate_alt_candidates (caption : String) (ocr_lines : List String)
    (tags : List String) : List String :=
  let meaningful := ocr_lines.filter (fun l => decide (2 < l.length))
  let cands := (meaningful.take 5).foldl addAlt []
  let cands :=
    if caption = "" then cands
    else if cands.contains caption then cands else cands ++ [caption]
  let cands :=
    if !(caption = "") && !meaningful.isEmpty then
      let combined := caption ++ ". Text: '" ++ meaningful.headD "" ++ "'."
      if cands.contains combined then cands else cands ++ [combined]
    else cands
  if cands.isEmpty && !tags.isEmpty then
    cands ++ ["Image of " ++ String.intercalate ", " (tags.take 3)]
  else cands

/- ===== merge.py : MergeService.merge_signals (12-45) ===== -/

/-- An element of the ocr_data list: None, a dict without a "text" key, or a
dict whose "text" entry is a string. -/
def OcrItem := Option (Option String)

/-- The comprehension [item['text'] for item in ocr_data if item and 'text' in
item]: None and text-less (hence in particular empty, falsy) dicts are
skipped. -/
def ocrTexts (ocr_data : List OcrItem) : List String :=
  ocr_data.filterMap (fun item =>
    match item with
    | some (some t) => some t
    | _ => none)

structure MergeResult where
  alt_text_candidates : List String
  filename_candidates : List String
  cta : String
deriving DecidableEq

def merge_signals (ocr_data : List OcrItem) (caption : String)
    (tags : List String) : MergeResult :=
  let clean_caption := if caption = "" then "" else String.mk (pyStripL caption.data)
  let ocr_lines_raw := ocrTexts ocr_data
  let ocr_lines := ocr_lines_raw.filter (fun line => !_is_garbage_text line)
  let cta_text := _extract_cta ocr_lines
  let alt_candidates := _generate_alt_candidates clean_caption ocr_lines tags
  let filename_candidates := _generate_filename_candidates tags clean_caption ocr_lines
  let filename_candidates :=
    if filename_candidates.isEmpty then ["image"] else filename_candidates
  let alt_candidates := if alt_candidates.isEmpty then ["Image"] else alt_candidates
  { alt_text_candidates := alt_candidates
    filename_candidates := filename_candidates
    cta := cta_text }

/- ===== routes.py : response cache (lines 14-16, 65-70, 134-138) ===== -/

/-- The in-memory response cache _response_cache: a Python dict in insertion
order, modelled as an association list whose head is the oldest entry.
Keys are the md5 fingerprints of the raw image bytes, modelled abstractly
as naturals. -/
abbrev Cache (α : Type) := List (Nat × α)

def CACHE_MAX_SIZE : Nat := 100

/-- The membership test `content_hash in _response_cache` followed by the
read.  A dict read does not reorder the dict, so a lookup leaves the cache
unchanged (the hit path also sets the cached flag inside the stored value;
that does not touch keys or their order). -/
def cacheLookup {α : Type} (c : Cache α) (k : Nat) : Option α :=
  (c.find? (fun e => e.1 == k)).map (fun e => e.2)

/-- Lines 134-138: when the dict holds at least _CACHE_MAX_SIZE entries,
next(iter(_response_cache)) is the first-inserted key and is deleted, then
the new entry is appended (a fresh key goes to the end of the insertion
order). -/
def cacheStore {α : Type} (c : Cache α) (k : Nat) (v : α) : Cache α :=
  let c := if CACHE_MAX_SIZE ≤ c.length then c.drop 1 else c
  c ++ [(k, v)]

/-- The cache behaviour of one /analyze request with fingerprint k and
freshly computed response v: a hit returns the stored response and leaves
the cache as it is; a miss stores v, evicting the oldest entry when full. -/
def analyzeCacheStep {α : Type} (c : Cache α) (k : Nat) (v : α) : Cache α :=
  if (cacheLookup c k).isSome then c else cacheStore c k v

/- ===== routes.py : analyze_image orchestration (lines 53-140) ===== -/

/-- One recognized text line as assembled by the OCR service: the text, and
in detailed mode a confidence and a bounding-box polygon. -/
structure TextLine where
  text : String
  confidence : Option ℚ
  box : Option (List (ℚ × ℚ))
deriving DecidableEq

/-- One line of raw OCR engine output: text, confidence, box polygon. -/
def EngineLine := String × ℚ × List (ℚ × ℚ)

/-- Modelled from the spec: OCRService.process_image_from_cv, called by
run_ocr in routes.py, is absent from the packaged sources (only
process_image and process_image_detailed, the byte-input variants, are
present).  Per spec sections 4.2 and 6 and mirroring
process_image_detailed, in detailed mode it yields one record per line
with text, confidence and bounding box. -/
def process_image_from_cv_detailed (engine : List EngineLine) : List TextLine :=
  engine.map (fun e => { text := e.1, confidence := some e.2.1, box := some e.2.2 })

/-- Modelled from the spec: the fast-mode variant of
OCRService.process_image_from_cv returns only the line texts, joined by
newlines, mirroring process_image. -/
def process_image_from_cv_fast (engine : List EngineLine) : String :=
  String.intercalate "\n" (engine.map (fun e => e.1))

/-- routes.py run_ocr (lines 80-91): in detailed mode the service result is
returned as is, with the joined text; in fast mode the newline-joined text
is split back into bare text-only lines.  Any raised error degrades to
([], ""). -/
def run_ocr (mode : String) (ocrRes : Except Unit (List EngineLine)) :
    List TextLine × String :=
  match ocrRes with
  | .error _ => ([], "")
  | .ok engine =>
    if mode = "detailed" then
      let result := process_image_from_cv_detailed engine
      (result, String.intercalate "\n" (result.map (fun item => item.text)))
    else
      let text := process_image_from_cv_fast engine
      ((pySplitChar '\n' text.data).filterMap
        (fun l => if l.isEmpty then none
                  else some { text := String.mk l, confidence := none, box := none }),
       text)

/-- routes.py run_caption (lines 93-98): any raised error degrades to "". -/
def run_caption (capRes : Except Unit String) : String :=
  match capRes with
  | .ok s => s
  | .error _ => ""

/-- routes.py run_clip (lines 100-105): any raised error degrades to []. -/
def run_clip (tagRes : Except Unit (List String)) : List String :=
  match tagRes with
  | .ok ts => ts
  | .error _ => []

structure AnalyzeResponse where
  filename : String
  alt_text : String
  candidate_filenames : List String
  candidate_alt_texts : List String
  cta : String
  raw_ocr : String
  raw_caption : String
  raw_tags : List String
  cached : Bool
deriving DecidableEq

/-- routes.py analyze_image, lines 107-132 (the compute path after a cache
miss): gather the three extractor results, merge, and build the response.
ocr_result is a list in both run_ocr branches, so the isinstance guard on
line 115 always takes the list branch; every dict in it carries a "text"
key. -/
def analyze_response (mode : String) (ocrRes : Except Unit (List EngineLine))
    (capRes : Except Unit String) (tagRes : Except Unit (List String)) :
    AnalyzeResponse :=
  let or := run_ocr mode ocrRes
  let caption := run_caption capRes
  let tags := run_clip tagRes
  let ocr_data : List OcrItem := or.1.map (fun item => some (some item.text))
  let result := merge_signals ocr_data caption tags
  { filename := result.filename_candidates.headD ""
    alt_text := result.alt_text_candidates.headD ""
    candidate_filenames := result.filename_candidates
    candidate_alt_texts := result.alt_text_candidates
    cta := result.cta
    raw_ocr := or.2
    raw_caption := caption
    raw_tags := tags
    cached := false }

/- ===== spec-worded classifier variant, for claim C9 ===== -/

/-- The repeated-run rule as the specification words it: only runs of
identical consecutive LETTERS count, both for the doubled-pair-recurs test
and for the run-of-three test. -/
def repeatNoiseSpec (clean : List Char) : Bool :=
  let runs := (ciRuns clean).filter (fun r => r.1.isAlpha)
  let ms := (runs.filter (fun r => 2 ≤ r.2)).map (fun r => r.1)
  let low := clean.map Char.toLower
  let run3 := runs.any (fun r => 3 ≤ r.2)
  ms.any (fun m => decide (1 < countPair m.toLower low) || run3)

/-- The garbage classifier with check 2 replaced by the letters-only reading
of the specification; all other checks are those of the source.  Used to
compare the specification wording of the repeated-run rule against the
source. -/
def is_garbage_text_spec (s : String) : Bool :=
  let text := s.data
  if text.length < 2 then true
  else
    let clean := pyStripL text
    if clean.contains ' ' && decide (10 < clean.length) then false
    else if clean.length ≤ 2 &&
        !(shortWhitelist.any (fun w => w.data == clean.map Char.toLower)) then true
    else if repeatNoiseSpec clean then true
    else if decide (clean.length < 12) && decide (2 < caseTransitions clean) then true
    else if weirdCase clean then true
    else if vowelNoise clean then true
    else false

/-- The slug shape asserted for filename candidates: lowercase alphanumerics
and hyphens only, at most 50 characters, at most one hyphen (that is, at most
two hyphen-delimited tokens). -/
def isSlugShaped (s : String) : Bool :=
  s.data.all (fun c => c.isLower || c.isDigit || c == '-') &&
  decide (s.data.length ≤ 50) && decide (s.data.count '-' ≤ 1)

/- ===== helper lemmas ===== -/

theorem head?_dropWhile_false {α : Type} {p : α → Bool} :
    ∀ {l : List α} {c : α}, (l.dropWhile p).head? = some c → p c = false := by
  intro l
  induction l with
  | nil => intro c h; simp [List.dropWhile] at h
  | cons x xs ih =>
    intro c h
    rw [List.dropWhile_cons] at h
    by_cases hx : p x = true
    · rw [if_pos hx] at h; exact ih h
    · rw [if_neg hx] at h
      simp only [List.head?_cons, Option.some.injEq] at h
      subst h
      exact Bool.not_eq_true _ |>.mp hx

theorem mem_of_mem_dropWhile {α : Type} {p : α → Bool} {l : List α} {c : α}
    (h : c ∈ l.dropWhile p) : c ∈ l :=
  (List.dropWhile_sublist p).subset h

theorem length_dropWhile_le' {α : Type} (p : α → Bool) (l : List α) :
    (l.dropWhile p).length ≤ l.length :=
  (List.dropWhile_sublist p).length_le

theorem mem_stripHyphens {l : List Char} {c : Char} (h : c ∈ stripHyphens l) :
    c ∈ l := by
  unfold stripHyphens rstripHyphens at h
  have h1 := mem_of_mem_dropWhile h
  rw [List.mem_reverse] at h1
  have h2 := mem_of_mem_dropWhile h1
  rwa [List.mem_reverse] at h2

theorem length_stripHyphens_le (l : List Char) :
    (stripHyphens l).length ≤ l.length := by
  unfold stripHyphens rstripHyphens
  calc ((((l.reverse.dropWhile (fun c => c == '-')).reverse).dropWhile
          (fun c => c == '-'))).length
      ≤ ((l.reverse.dropWhile (fun c => c == '-')).reverse).length :=
        length_dropWhile_le' _ _
    _ = (l.reverse.dropWhile (fun c => c == '-')).length := List.length_reverse _
    _ ≤ l.reverse.length := length_dropWhile_le' _ _
    _ = l.length := List.length_reverse _

theorem head?_stripHyphens_ne {l : List Char} {c : Char}
    (h : (stripHyphens l).head? = some c) : c ≠ '-' := by
  have := head?_dropWhile_false h
  simpa using this

theorem mem_collapseWsAux {c : Char} :
    ∀ (b : Bool) (l : List Char), c ∈ collapseWsAux b l →
      c = '-' ∨ (c ∈ l ∧ isPySpace c = false) := by
  intro b l
  induction l generalizing b with
  | nil => intro h; simp [collapseWsAux] at h
  | cons x xs ih =>
    intro h
    rw [collapseWsAux] at h
    by_cases hx : isPySpace x = true
    · rw [if_pos hx] at h
      by_cases hb : b = true
      · rw [if_pos hb] at h
        rcases ih true h with h1 | ⟨h2, h3⟩
        · exact Or.inl h1
        · exact Or.inr ⟨List.mem_cons_of_mem x h2, h3⟩
      · rw [if_neg hb] at h
        rcases List.mem_cons.mp h with h1 | h1
        · exact Or.inl h1
        · rcases ih true h1 with h2 | ⟨h2, h3⟩
          · exact Or.inl h2
          · exact Or.inr ⟨List.mem_cons_of_mem x h2, h3⟩
    · rw [if_neg hx] at h
      rcases List.mem_cons.mp h with h1 | h1
      · subst h1
        exact Or.inr ⟨List.mem_cons_self c xs, Bool.not_eq_true _ |>.mp hx⟩
      · rcases ih false h1 with h2 | ⟨h2, h3⟩
        · exact Or.inl h2
        · exact Or.inr ⟨List.mem_cons_of_mem x h2, h3⟩

/-- Every character of a slug is a lowercase letter, a digit, or a hyphen. -/
theorem slug_chars (s : String) :
    ∀ c ∈ (_slugify s).data, (c.isLower || c.isDigit || c == '-') = true := by
  intro c hc
  unfold _slugify at hc
  by_cases hs : s = ""
  · rw [if_pos hs] at hc
    fin_cases hc <;> decide
  · rw [if_neg hs] at hc
    simp only at hc
    -- peel the final truncation branch
    have hc3 : c ∈ stripHyphens (collapseWs
        ((s.data.map Char.toLower).filter
          (fun c => c.isLower || c.isDigit || isPySpace c || c = '-'))) := by
      by_cases hlen : 50 <
          (stripHyphens (collapseWs ((s.data.map Char.toLower).filter
            (fun c => c.isLower || c.isDigit || isPySpace c || c = '-')))).length
      · rw [if_pos hlen] at hc
        exact List.take_subset _ _ (mem_stripHyphens hc)
      · rw [if_neg hlen] at hc
        exact hc
    have hc2 := mem_stripHyphens hc3
    rcases mem_collapseWsAux false _ hc2 with h1 | ⟨h2, h3⟩
    · subst h1; decide
    · have h4 := List.of_mem_filter h2
      simp only [Bool.or_eq_true, decide_eq_true_eq] at h4
      rcases h4 with ((h5 | h5) | h5) | h5
      · simp [h5]
      · simp [h5]
      · rw [h5] at h3; exact absurd h3 (by simp)
      · subst h5; decide

/-- A slug never exceeds 50 characters. -/
theorem slug_length_le (s : String) : (_slugify s).data.length ≤ 50 := by
  unfold _slugify
  by_cases hs : s = ""
  · rw [if_pos hs]; decide
  · rw [if_neg hs]
    simp only
    by_cases hlen : 50 <
        (stripHyphens (collapseWs ((s.data.map Char.toLower).filter
          (fun c => c.isLower || c.isDigit || isPySpace c || c = '-')))).length
    · rw [if_pos hlen]
      calc (stripHyphens ((stripHyphens (collapseWs _)).take 50)).length
          ≤ ((stripHyphens (collapseWs ((s.data.map Char.toLower).filter
              (fun c => c.isLower || c.isDigit || isPySpace c || c = '-')))).take
                50).length := length_stripHyphens_le _
        _ ≤ 50 := by rw [List.length_take]; exact min_le_left _ _
    · rw [if_neg hlen]
      exact Nat.le_of_not_lt hlen

/-- A nonempty slug never starts with a hyphen. -/
theorem slug_head_ne (s : String) {c : Char}
    (h : (_slugify s).data.head? = some c) : c ≠ '-' := by
  unfold _slugify at h
  by_cases hs : s = ""
  · rw [if_pos hs] at h
    simp only [String.data] at h
    intro hcontra
    rw [hcontra] at h
    exact absurd h (by decide)
  · rw [if_neg hs] at h
    simp only at h
    by_cases hlen : 50 <
        (stripHyphens (collapseWs ((s.data.map Char.toLower).filter
          (fun c => c.isLower || c.isDigit || isPySpace c || c = '-')))).length
    · rw [if_pos hlen] at h
      exact head?_stripHyphens_ne h
    · rw [if_neg hlen] at h
      exact head?_stripHyphens_ne h

theorem pySplitChar_ne_nil (sep : Char) : ∀ l, pySplitChar sep l ≠ [] := by
  intro l
  induction l with
  | nil => simp [pySplitChar]
  | cons c rest ih =>
    rw [pySplitChar]
    by_cases hc : c = sep
    · rw [if_pos hc]; simp
    · rw [if_neg hc]
      cases h : pySplitChar sep rest with
      | nil => exact absurd h ih
      | cons p ps => simp

theorem mem_pySplitChar_not_sep (sep : Char) :
    ∀ l, ∀ p ∈ pySplitChar sep l, sep ∉ p := by
  intro l
  induction l with
  | nil => intro p hp; simp [pySplitChar] at hp; simp [hp]
  | cons c rest ih =>
    intro p hp
    rw [pySplitChar] at hp
    by_cases hc : c = sep
    · rw [if_pos hc] at hp
      rcases List.mem_cons.mp hp with h | h
      · simp [h]
      · exact ih p h
    · rw [if_neg hc] at hp
      cases h : pySplitChar sep rest with
      | nil => exact absurd h (pySplitChar_ne_nil sep rest)
      | cons q qs =>
        rw [h] at hp
        rcases List.mem_cons.mp hp with h1 | h1
        · subst h1
          intro hmem
          rcases List.mem_cons.mp hmem with h2 | h2
          · exact hc h2.symm
          · exact ih q (h ▸ List.mem_cons_self q qs) h2
        · exact ih p (h ▸ List.mem_cons_of_mem q h1)

theorem mem_pySplitChar_subset (sep : Char) :
    ∀ l, ∀ p ∈ pySplitChar sep l, ∀ c ∈ p, c ∈ l := by
  intro l
  induction l with
  | nil => intro p hp; simp [pySplitChar] at hp; simp [hp]
  | cons x rest ih =>
    intro p hp c hcp
    rw [pySplitChar] at hp
    by_cases hx : x = sep
    · rw [if_pos hx] at hp
      rcases List.mem_cons.mp hp with h | h
      · subst h; simp at hcp
      · exact List.mem_cons_of_mem x (ih p h c hcp)
    · rw [if_neg hx] at hp
      cases h : pySplitChar sep rest with
      | nil => exact absurd h (pySplitChar_ne_nil sep rest)
      | cons q qs =>
        rw [h] at hp
        rcases List.mem_cons.mp hp with h1 | h1
        · subst h1
          rcases List.mem_cons.mp hcp with h2 | h2
          · subst h2; exact List.mem_cons_self c rest
          · exact List.mem_cons_of_mem x
              (ih q (h ▸ List.mem_cons_self q qs) c h2)
        · exact List.mem_cons_of_mem x
            (ih p (h ▸ List.mem_cons_of_mem q h1) c hcp)

theorem intercalate_two (s : List Char) (a b : List Char) (t : List (List Char)) :
    List.intercalate s (a :: b :: t) = a ++ s ++ List.intercalate s (b :: t) := by
  simp [List.intercalate, List.intersperse]

theorem intercalate_one (s : List Char) (a : List Char) :
    List.intercalate s [a] = a := by
  simp [List.intercalate, List.intersperse]

/-- Recomposition: joining the fields of a single-character split with that
character gives back the original list. -/
theorem intercalate_pySplitChar (sep : Char) :
    ∀ l, List.intercalate [sep] (pySplitChar sep l) = l := by
  intro l
  induction l with
  | nil => simp [pySplitChar, List.intercalate, List.intersperse]
  | cons c rest ih =>
    rw [pySplitChar]
    by_cases hc : c = sep
    · rw [if_pos hc]
      cases h : pySplitChar sep rest with
      | nil => exact absurd h (pySplitChar_ne_nil sep rest)
      | cons q qs =>
        rw [intercalate_two]
        rw [h] at ih
        rw [ih, hc]
        simp
    · rw [if_neg hc]
      cases h : pySplitChar sep rest with
      | nil => exact absurd h (pySplitChar_ne_nil sep rest)
      | cons q qs =>
        simp only
        cases qs with
        | nil =>
          rw [intercalate_one]
          rw [h, intercalate_one] at ih
          rw [ih]
        | cons q2 qs2 =>
          rw [intercalate_two]
          rw [h, intercalate_two] at ih
          simp only [List.cons_append, List.append_assoc] at ih ⊢
          rw [ih]

theorem length_le_intercalate (s : List Char) (b : List Char)
    (t : List (List Char)) :
    b.length ≤ (List.intercalate s (b :: t)).length := by
  cases t with
  | nil => rw [intercalate_one]
  | cons q t2 =>
    rw [intercalate_two]
    simp only [List.length_append]
    omega

theorem length_intercalate_take_two (s : List Char) (ps : List (List Char)) :
    (List.intercalate s (ps.take 2)).length ≤ (List.intercalate s ps).length := by
  cases ps with
  | nil => simp
  | cons a t =>
    cases t with
    | nil => simp
    | cons b t2 =>
      simp only [List.take, intercalate_two]
      rw [intercalate_one]
      simp only [List.length_append]
      have := length_le_intercalate s b t2
      omega

theorem mk_ne_empty {l : List Char} (h : l ≠ []) : String.mk l ≠ "" := by
  intro hc
  exact h (congrArg String.data hc)

/-- Everything validate accepts is a well-formed filename slug in list form:
nonempty, lowercase alphanumerics and hyphens, at most 50 characters, at most
one hyphen (hence at most two hyphen-delimited tokens). -/
theorem validate_some_props {s out : String} (h : validate s = some out) :
    out.data ≠ [] ∧ (∀ c ∈ out.data, (c.isLower || c.isDigit || c == '-') = true) ∧
    out.data.length ≤ 50 ∧ out.data.count '-' ≤ 1 := by
  unfold validate at h
  by_cases hempty : _slugify s = ""
  · rw [if_pos hempty] at h; exact absurd h (by simp)
  · rw [if_neg hempty] at h
    simp only [Option.some.injEq] at h
    -- the slug is a nonempty list not starting with the separator
    have hne : (_slugify s).data ≠ [] := by
      intro hd
      exact hempty (String.ext hd)
    cases hdata : (_slugify s).data with
    | nil => exact absurd hdata hne
    | cons d rest =>
      have hdne : d ≠ '-' := by
        apply slug_head_ne s
        rw [hdata]; rfl
      have hparts_ne := pySplitChar_ne_nil '-' rest
      cases hps : pySplitChar '-' rest with
      | nil => exact absurd hps hparts_ne
      | cons p ps =>
        have hsplit : pySplitChar '-' (_slugify s).data = (d :: p) :: ps := by
          rw [hdata, pySplitChar, if_neg hdne, hps]
        rw [hsplit] at h
        have hnotsep := mem_pySplitChar_not_sep '-' (_slugify s).data
        have hsubset := mem_pySplitChar_subset '-' (_slugify s).data
        have hlen50 := slug_length_le s
        have hrecomp := intercalate_pySplitChar '-' (_slugify s).data
        rw [hsplit] at hnotsep hsubset hrecomp
        have hchars := slug_chars s
        cases ps with
        | nil =>
          have hout : out.data = d :: p := by
            rw [← h]
            show List.intercalate ['-'] (List.take 2 [d :: p]) = d :: p
            simp only [List.take, intercalate_one]
          rw [hout]
          refine ⟨by simp, ?_, ?_, ?_⟩
          · intro c hc
            apply hchars
            exact hsubset (d :: p) (List.mem_cons_self _ _) c hc
          · calc (d :: p).length
                = (List.intercalate ['-'] [d :: p]).length := by
                  rw [intercalate_one]
              _ = (_slugify s).data.length := by rw [hrecomp]
              _ ≤ 50 := hlen50
          · have := hnotsep (d :: p) (List.mem_cons_self _ _)
            simp only [List.count_eq_zero_of_not_mem this]
            omega
        | cons q qs =>
          have hq_mem : q ∈ (d :: p) :: q :: qs := by simp
          have hout : out.data = (d :: p) ++ '-' :: q := by
            rw [← h]
            show List.intercalate ['-'] (List.take 2 ((d :: p) :: q :: qs))
                = (d :: p) ++ '-' :: q
            simp only [List.take, intercalate_two, intercalate_one]
            simp
          rw [hout]
          refine ⟨by simp, ?_, ?_, ?_⟩
          · intro c hc
            rcases List.mem_append.mp hc with hc2 | hc2
            · apply hchars
              exact hsubset (d :: p) (List.mem_cons_self _ _) c hc2
            · rcases List.mem_cons.mp hc2 with hc3 | hc3
              · subst hc3; decide
              · apply hchars
                exact hsubset q hq_mem c hc3
          · calc ((d :: p) ++ '-' :: q).length
                = (d :: p).length + 1 + q.length := by
                  simp [List.length_append]; omega
              _ ≤ (List.intercalate ['-'] ((d :: p) :: q :: qs)).length := by
                  have h1 := length_le_intercalate ['-'] q qs
                  rw [intercalate_two]
                  simp only [List.length_append, List.length_cons,
                    List.length_singleton]
                  omega
              _ = (_slugify s).data.length := by rw [hrecomp]
              _ ≤ 50 := hlen50
          · have h1 := hnotsep (d :: p) (List.mem_cons_self _ _)
            have h2 := hnotsep q hq_mem
            have hd0 : (d == '-') = false := by
              simp only [beq_eq_false_iff_ne]; exact hdne
            have hp0 : List.count '-' p = 0 :=
              List.count_eq_zero_of_not_mem
                (fun hm => h1 (List.mem_cons_of_mem d hm))
            have hq0 : List.count '-' q = 0 := List.count_eq_zero_of_not_mem h2
            simp [List.count_append, List.count_cons, hd0, hp0, hq0]

theorem data_ne_nil_of_ne_empty {s : String} (h : s ≠ "") : s.data ≠ [] := by
  intro hc
  exact h (String.ext hc)

theorem mem_addCand {cands : List String} {o : Option String} {s : String}
    (hs : s ∈ addCand cands o) : s ∈ cands ∨ o = some s := by
  cases o with
  | none => exact Or.inl hs
  | some x =>
    simp only [addCand] at hs
    split at hs
    · exact Or.inl hs
    · rcases List.mem_append.mp hs with h | h
      · exact Or.inl h
      · simp only [List.mem_singleton] at h
        subst h
        exact Or.inr rfl

theorem mem_addCand_validate {cands : List String} {x s : String}
    (hs : s ∈ addCand cands (validate x)) :
    s ∈ cands ∨ ∃ y, validate y = some s := by
  rcases mem_addCand hs with h | h
  · exact Or.inl h
  · exact Or.inr ⟨x, h⟩

theorem mem_foldl_of_mem_inv {β : Type} {Q : String → Prop}
    {f : List String → β → List String}
    (hf : ∀ cs b s, s ∈ f cs b → s ∈ cs ∨ Q s) :
    ∀ (l : List β) (cs : List String) (s : String),
      s ∈ List.foldl f cs l → s ∈ cs ∨ Q s := by
  intro l
  induction l with
  | nil => intro cs s h; exact Or.inl h
  | cons b bs ih =>
    intro cs s h
    rcases ih (f cs b) s h with h1 | h1
    · exact hf cs b s h1
    · exact Or.inr h1

/-- Every filename candidate was produced by validate. -/
theorem mem_fn_cand_validate {tags : List String} {caption : String}
    {lines : List String} {s : String}
    (hs : s ∈ _generate_filename_candidates tags caption lines) :
    ∃ x, validate x = some s := by
  unfold _generate_filename_candidates at hs
  simp only at hs
  have hfold := mem_foldl_of_mem_inv
    (f := fun cs line =>
      if decide (3 < line.length) && decide (line.length < 20) then
        addCand cs (validate line)
      else cs)
    (Q := fun s => ∃ y, validate y = some s)
    (by
      intro cs b s h
      dsimp only at h ⊢
      split at h
      · exact mem_addCand_validate h
      · exact Or.inl h)
  rcases hfold _ _ _ hs with h1 | h1
  swap
  · exact h1
  clear hs hfold
  -- caption stage
  by_cases hcap : caption = ""
  · rw [if_pos hcap] at h1
    -- tags stage only
    cases tags with
    | nil => simp at h1
    | cons t0 rest =>
      cases rest with
      | nil =>
        simp only at h1
        rcases mem_addCand_validate h1 with h2 | h2
        · simp at h2
        · exact h2
      | cons t1 rest2 =>
        simp only at h1
        rcases mem_addCand_validate h1 with h2 | h2
        · rcases mem_addCand_validate h2 with h3 | h3
          · simp at h3
          · exact h3
        · exact h2
  · rw [if_neg hcap] at h1
    rcases mem_addCand_validate h1 with h2 | h2
    swap
    · exact h2
    cases tags with
    | nil => simp at h2
    | cons t0 rest =>
      cases rest with
      | nil =>
        simp only at h2
        rcases mem_addCand_validate h2 with h3 | h3
        · simp at h3
        · exact h3
      | cons t1 rest2 =>
        simp only at h2
        rcases mem_addCand_validate h2 with h3 | h3
        · rcases mem_addCand_validate h3 with h4 | h4
          · simp at h4
          · exact h4
        · exact h3

/-- Every filename candidate is a well-formed slug. -/
theorem fn_cand_props {tags : List String} {caption : String}
    {lines : List String} {s : String}
    (hs : s ∈ _generate_filename_candidates tags caption lines) :
    s.data ≠ [] ∧ (∀ c ∈ s.data, (c.isLower || c.isDigit || c == '-') = true) ∧
    s.data.length ≤ 50 ∧ s.data.count '-' ≤ 1 := by
  obtain ⟨x, hx⟩ := mem_fn_cand_validate hs
  exact validate_some_props hx

theorem mem_foldl_addAlt : ∀ (l cs : List String) (s : String),
    s ∈ List.foldl addAlt cs l → s ∈ cs ∨ s ∈ l := by
  intro l
  induction l with
  | nil => intro cs s h; exact Or.inl h
  | cons b bs ih =>
    intro cs s h
    rcases ih (addAlt cs b) s h with h1 | h1
    · unfold addAlt at h1
      split at h1
      · exact Or.inl h1
      · rcases List.mem_append.mp h1 with h2 | h2
        · exact Or.inl h2
        · simp only [List.mem_singleton] at h2
          subst h2
          exact Or.inr (List.mem_cons_self _ _)
    · exact Or.inr (List.mem_cons_of_mem _ h1)

/-- Every alt-text candidate is a nonempty string. -/
theorem alt_cand_ne_empty {caption : String} {lines tags : List String}
    {s : String} (hs : s ∈ _generate_alt_candidates caption lines tags) :
    s.data ≠ [] := by
  unfold _generate_alt_candidates at hs
  simp only at hs
  -- a member of the filtered meaningful lines has length > 2
  have hmeaningful : ∀ t ∈ lines.filter (fun l => decide (2 < l.length)),
      t.data ≠ [] := by
    intro t ht
    have h2 := List.of_mem_filter ht
    simp only [decide_eq_true_eq] at h2
    intro hc
    have h3 : 2 < t.data.length := h2
    rw [hc] at h3
    simp at h3
  set meaningful := lines.filter (fun l => decide (2 < l.length)) with hm
  set c0 := List.foldl addAlt [] (meaningful.take 5) with hc0
  have h0 : ∀ t, t ∈ c0 → t.data ≠ [] := by
    intro t ht
    rcases mem_foldl_addAlt _ _ _ ht with h | h
    · simp at h
    · exact hmeaningful _ (List.take_subset _ _ h)
  set c1 := if caption = "" then c0
    else if c0.contains caption then c0 else c0 ++ [caption] with hc1
  have h1 : ∀ t, t ∈ c1 → t.data ≠ [] := by
    intro t ht
    rw [hc1] at ht
    by_cases hcap : caption = ""
    · rw [if_pos hcap] at ht; exact h0 t ht
    · rw [if_neg hcap] at ht
      split at ht
      · exact h0 t ht
      · rcases List.mem_append.mp ht with h | h
        · exact h0 t h
        · simp only [List.mem_singleton] at h
          subst h
          exact data_ne_nil_of_ne_empty hcap
  set c2 := if !(caption = "") && !meaningful.isEmpty then
      (if c1.contains (caption ++ ". Text: '" ++ meaningful.headD "" ++ "'.")
       then c1
       else c1 ++ [caption ++ ". Text: '" ++ meaningful.headD "" ++ "'."])
    else c1 with hc2
  have h2 : ∀ t, t ∈ c2 → t.data ≠ [] := by
    intro t ht
    rw [hc2] at ht
    split at ht
    · split at ht
      · exact h1 t ht
      · rcases List.mem_append.mp ht with h | h
        · exact h1 t h
        · simp only [List.mem_singleton] at h
          subst h
          rw [String.data_append]
          simp
    · exact h1 t ht
  split at hs
  · rcases List.mem_append.mp hs with h | h
    · exact h2 s h
    · simp only [List.mem_singleton] at h
      subst h
      rw [String.data_append]
      intro hc
      have := List.append_eq_nil.mp hc
      exact absurd this.1 (by decide)
  · exact h2 s hs

/-- The fused filename candidate list is never empty. -/
theorem merge_fn_ne_nil (d : List OcrItem) (c : String) (t : List String) :
    (merge_signals d c t).filename_candidates ≠ [] := by
  unfold merge_signals
  simp only
  split <;> split
  all_goals simp_all [List.isEmpty_iff]

/-- The fused alt-text candidate list is never empty. -/
theorem merge_alt_ne_nil (d : List OcrItem) (c : String) (t : List String) :
    (merge_signals d c t).alt_text_candidates ≠ [] := by
  unfold merge_signals
  simp only
  split <;> split
  all_goals simp_all [List.isEmpty_iff]

/-- Every fused filename candidate is a nonempty string. -/
theorem merge_fn_elems_ne {d : List OcrItem} {c : String} {t : List String}
    {s : String} (hs : s ∈ (merge_signals d c t).filename_candidates) :
    s.data ≠ [] := by
  unfold merge_signals at hs
  dsimp only at hs
  split at hs <;> split at hs
  all_goals
    first
      | (simp only [List.mem_singleton] at hs; subst hs; decide)
      | exact (fn_cand_props hs).1

/-- Every fused alt-text candidate is a nonempty string. -/
theorem merge_alt_elems_ne {d : List OcrItem} {c : String} {t : List String}
    {s : String} (hs : s ∈ (merge_signals d c t).alt_text_candidates) :
    s.data ≠ [] := by
  unfold merge_signals at hs
  dsimp only at hs
  split at hs <;> split at hs
  all_goals
    first
      | (simp only [List.mem_singleton] at hs; subst hs; decide)
      | exact alt_cand_ne_empty hs

theorem headD_mem_of_ne_nil {l : List String} (h : l ≠ []) : l.headD "" ∈ l := by
  cases l with
  | nil => exact absurd rfl h
  | cons a t => simp [List.headD]

/- ===== cache lemmas ===== -/

theorem cacheLookup_eq_none_of_not_mem {α : Type} {c : Cache α} {k : Nat}
    (h : k ∉ c.map Prod.fst) : cacheLookup c k = none := by
  unfold cacheLookup
  rw [List.find?_eq_none.mpr]
  · rfl
  · intro e he
    simp only [beq_eq_false_iff_ne, ne_eq, beq_iff_eq]
    intro hk
    exact h (hk ▸ List.mem_map_of_mem Prod.fst he)

theorem cacheLookup_mem {α : Type} {c : Cache α} {k : Nat} {v : α}
    (hnd : (c.map Prod.fst).Nodup) (hmem : (k, v) ∈ c) :
    cacheLookup c k = some v := by
  induction c with
  | nil => simp at hmem
  | cons e rest ih =>
    unfold cacheLookup
    rcases List.mem_cons.mp hmem with h | h
    · subst h
      simp [List.find?]
    · have hnd1 : (e.1 :: rest.map Prod.fst).Nodup := by
        rwa [List.map_cons] at hnd
      have hk_ne : e.1 ≠ k := by
        intro hk
        have hnotin : e.1 ∉ rest.map Prod.fst := (List.nodup_cons.mp hnd1).1
        exact hnotin (hk ▸ List.mem_map_of_mem Prod.fst h)
      rw [List.find?]
      have : (e.1 == k) = false := by
        simpa using hk_ne
      rw [this]
      exact ih (List.nodup_cons.mp hnd1).2 h

/-- Filling phase: while the table and the fresh keys fit within the
capacity, requests with pairwise-fresh keys append in order, evicting
nothing. -/
theorem cache_fill {α : Type} :
    ∀ (ps : List (Nat × α)) (c : Cache α),
      ((c ++ ps).map Prod.fst).Nodup →
      c.length + ps.length ≤ CACHE_MAX_SIZE →
      List.foldl (fun acc p => analyzeCacheStep acc p.1 p.2) c ps = c ++ ps := by
  intro ps
  induction ps with
  | nil => intro c _ _; simp
  | cons p rest ih =>
    intro c hnd hlen
    simp only [List.length_cons] at hlen
    have hnd' : (((c ++ [p]) ++ rest).map Prod.fst).Nodup := by
      rwa [List.append_assoc, List.singleton_append]
    have hfresh : p.1 ∉ c.map Prod.fst := by
      intro hmem
      rw [List.map_append] at hnd
      rcases List.nodup_append.mp hnd with ⟨_, _, hdisj⟩
      exact hdisj hmem (by simp)
    have hlook : cacheLookup c p.1 = none := cacheLookup_eq_none_of_not_mem hfresh
    have hstep : analyzeCacheStep c p.1 p.2 = c ++ [p] := by
      unfold analyzeCacheStep
      rw [hlook]
      simp only [Option.isSome_none, Bool.false_eq_true, if_false]
      unfold cacheStore
      rw [if_neg (by omega : ¬ CACHE_MAX_SIZE ≤ c.length)]
    rw [List.foldl_cons, hstep]
    rw [ih (c ++ [p]) hnd' (by simp only [List.length_append, List.length_singleton]; omega)]
    rw [List.append_assoc, List.singleton_append]

/-- Overflow: starting empty, capacity-plus-one requests with pairwise
distinct fingerprints leave exactly the last capacity entries, in order --
only the first-inserted entry has been evicted. -/
theorem cache_fifo_final {α : Type} (ps : List (Nat × α))
    (hnd : (ps.map Prod.fst).Nodup) (hlen : ps.length = CACHE_MAX_SIZE + 1) :
    List.foldl (fun acc p => analyzeCacheStep acc p.1 p.2) [] ps = ps.drop 1 := by
  have hne : ps ≠ [] := by
    intro h
    rw [h] at hlen
    simp [CACHE_MAX_SIZE] at hlen
  obtain ⟨init, last, hsplit⟩ : ∃ init last, ps = init ++ [last] :=
    ⟨ps.dropLast, ps.getLast hne, (List.dropLast_append_getLast hne).symm⟩
  subst hsplit
  have hinit_len : init.length = CACHE_MAX_SIZE := by
    simp only [List.length_append, List.length_singleton] at hlen
    omega
  have hinit_ne : init ≠ [] := by
    intro h
    rw [h] at hinit_len
    simp [CACHE_MAX_SIZE] at hinit_len
  rw [List.foldl_append]
  have hfill : List.foldl (fun acc p => analyzeCacheStep acc p.1 p.2) [] init
      = init := by
    have := cache_fill init []
      (by simpa using (List.nodup_append.mp (by rwa [List.map_append] at hnd)).1)
      (by simp [hinit_len])
    simpa using this
  rw [hfill]
  have hfresh : last.1 ∉ init.map Prod.fst := by
    intro hmem
    rw [List.map_append] at hnd
    rcases List.nodup_append.mp hnd with ⟨_, _, hdisj⟩
    exact hdisj hmem (by simp)
  have hlook : cacheLookup init last.1 = none := cacheLookup_eq_none_of_not_mem hfresh
  simp only [List.foldl_cons, List.foldl_nil]
  unfold analyzeCacheStep
  rw [hlook]
  simp only [Option.isSome_none, Bool.false_eq_true, if_false]
  unfold cacheStore
  rw [if_pos hinit_len.ge]
  rw [List.drop_append_of_le_length
    (by rw [hinit_len]; norm_num [CACHE_MAX_SIZE] : 1 ≤ init.length)]

/-- A lookup hit never reorders or modifies the cache key sequence: the
request leaves the cache exactly as it was. -/
theorem cache_hit_no_change {α : Type} (c : Cache α) (k : Nat) (v : α)
    (h : (cacheLookup c k).isSome) : analyzeCacheStep c k v = c := by
  unfold analyzeCacheStep
  rw [if_pos h]

/-- The first fused filename candidate is a nonempty string. -/
theorem merge_head_fn_ne (d : List OcrItem) (c : String) (t : List String) :
    (merge_signals d c t).filename_candidates.headD "" ≠ "" := by
  have h1 := merge_fn_ne_nil d c t
  have h2 := merge_fn_elems_ne (headD_mem_of_ne_nil h1)
  intro hc
  rw [hc] at h2
  exact h2 rfl

/-- The first fused alt-text candidate is a nonempty string. -/
theorem merge_head_alt_ne (d : List OcrItem) (c : String) (t : List String) :
    (merge_signals d c t).alt_text_candidates.headD "" ≠ "" := by
  have h1 := merge_alt_ne_nil d c t
  have h2 := merge_alt_elems_ne (headD_mem_of_ne_nil h1)
  intro hc
  rw [hc] at h2
  exact h2 rfl

/- ===== claim theorems ===== -/

/-- C1: the claim (and the spec, and the comment in _extract_cta of merge.py,
which cites "Shop Now" as the canonical call-to-action) expects "Shop Now" to
be classified genuine and returned as the cta.  The code disagrees:
_is_garbage_text marks "Shop Now" as noise (its mixed-case check fires on the
interior capital N), so the line is filtered out before CTA extraction ever
sees it, and the fused cta is empty -- even though _extract_cta, applied to
the line directly, would recognize and return it. -/
theorem C1_shop_now_is_filtered :
    _is_garbage_text "Shop Now" = true ∧
    _extract_cta ["Shop Now"] = "Shop Now" ∧
    (merge_signals [some (some "Shop Now")] "" []).cta = "" := by
  refine ⟨by decide, by decide, by decide⟩

/-- C6: the garbage-text classifier on the literal examples: "RPEEREPe",
"TeEEEeD" and "nu" are noise; "Hello World" and "OK" are genuine. -/
theorem C6_literal_examples :
    _is_garbage_text "RPEEREPe" = true ∧
    _is_garbage_text "TeEEEeD" = true ∧
    _is_garbage_text "nu" = true ∧
    _is_garbage_text "Hello World" = false ∧
    _is_garbage_text "OK" = false := by
  refine ⟨by decide, by decide, by decide, by decide, by decide⟩

/-- C2: fusion always returns nonempty alt-text and filename candidate
lists, and on the all-empty input the candidates are exactly ["Image"] and
["image"] with an empty cta. -/
theorem C2_nonempty_candidates :
    (∀ (d : List OcrItem) (c : String) (t : List String),
      (merge_signals d c t).alt_text_candidates ≠ [] ∧
      (merge_signals d c t).filename_candidates ≠ []) ∧
    merge_signals [] "" [] =
      { alt_text_candidates := ["Image"], filename_candidates := ["image"],
        cta := "" } := by
  refine ⟨fun d c t => ⟨merge_alt_ne_nil d c t, merge_fn_ne_nil d c t⟩, by decide⟩

/-- C10: fusion is total over malformed OCR input: None elements and dicts
without a "text" key are skipped -- the result equals the result on the list
of well-formed text entries alone -- and the result is always a complete
record with nonempty candidate lists. -/
theorem C10_total_on_malformed :
    ∀ (d : List OcrItem) (c : String) (t : List String),
      merge_signals d c t =
        merge_signals ((ocrTexts d).map (fun s => (some (some s) : OcrItem))) c t ∧
      (merge_signals d c t).alt_text_candidates ≠ [] ∧
      (merge_signals d c t).filename_candidates ≠ [] := by
  intro d c t
  refine ⟨?_, merge_alt_ne_nil d c t, merge_fn_ne_nil d c t⟩
  have hgen : ∀ (l : List String),
      ocrTexts (l.map (fun s => (some (some s) : OcrItem))) = l := by
    intro l
    induction l with
    | nil => rfl
    | cons x xs ih => simpa [ocrTexts, List.filterMap_cons] using ih
  have h : ocrTexts ((ocrTexts d).map (fun s => (some (some s) : OcrItem)))
      = ocrTexts d := hgen (ocrTexts d)
  unfold merge_signals
  rw [h]

/-- C7 counterexample: the claim says a matching line is returned verbatim,
but _extract_cta returns line.strip(): on the genuine line
"Get started here " (trailing space) the result is the trimmed line, not the
line itself. -/
theorem C7_counterexample :
    _is_garbage_text "Get started here " = false ∧
    _extract_cta ["Get started here "] = "Get started here" ∧
    ("Get started here" : String) ≠ "Get started here " := by
  refine ⟨by decide, by decide, by decide⟩

/-- C7 amended: the call-to-action is the first line whose trimmed,
lower-cased form has length strictly between 3 and 25 and contains a
keyword, returned with surrounding whitespace trimmed and original casing
preserved; the empty string when no line matches. -/
theorem C7_cta_first_match_trimmed :
    ∀ (lines : List String),
      _extract_cta lines =
        ((lines.find? matchesCta).map (fun l => String.mk (pyStripL l.data))).getD "" := by
  intro lines
  induction lines with
  | nil => rfl
  | cons l rest ih =>
    unfold _extract_cta
    by_cases h : matchesCta l = true
    · rw [if_pos h, List.find?_cons_of_pos _ h]
      rfl
    · rw [if_neg (by simp [h]), List.find?_cons_of_neg _ (by simp [h]), ih]

/-- C9 counterexample: the claim restricts the repeated-run rule to letters,
but the source regex (.)\1+ matches any character: "11x11" contains no
repeated letters (and no later rule fires on it, as the spec-worded variant
shows), yet the source classifier marks it noise because the digit pair 11
occurs twice. -/
theorem C9_counterexample :
    _is_garbage_text "11x11" = true ∧ is_garbage_text_spec "11x11" = false := by
  refine ⟨by decide, by decide⟩

/-- C9 amended: for a line not already decided by the earlier precedence
checks (in particular not genuine via the long multi-word pass), a run of
two or more identical consecutive characters of any kind -- letters, digits
or punctuation, compared case-insensitively -- whose doubled pair recurs
more than once in the line, or a run of three or more identical consecutive
characters anywhere, makes the classifier mark the line noise. -/
theorem C9_repeat_rule_any_char (text : String)
    (hmw : ((pyStripL text.data).contains ' ' &&
      decide (10 < (pyStripL text.data).length)) = false)
    (hrep : repeatNoise (pyStripL text.data) = true) :
    _is_garbage_text text = true := by
  unfold _is_garbage_text isGarbageL
  dsimp only
  rw [hmw, hrep]
  simp

/-- C9 witness: "aa1aa" reaches the repeated-run check and triggers it (the
pair aa occurs twice), so the classifier marks it noise. -/
theorem C9_repeat_rule_witness :
    ((pyStripL ("aa1aa" : String).data).contains ' ' &&
      decide (10 < (pyStripL ("aa1aa" : String).data).length)) = false ∧
    repeatNoise (pyStripL ("aa1aa" : String).data) = true ∧
    _is_garbage_text "aa1aa" = true := by
  refine ⟨by decide, by decide,
    C9_repeat_rule_any_char "aa1aa" (by decide) (by decide)⟩

/-- C8: every filename candidate produced by fusion is slug-shaped --
lowercase alphanumerics and hyphens only, at most 50 characters, at most two
hyphen-delimited tokens -- and the slug of "Woman Holding Bag!!" capped at
two tokens is "woman-holding". -/
theorem C8_filename_slug_invariant :
    (∀ (tags : List String) (caption : String) (lines : List String),
      ((_generate_filename_candidates tags caption lines).all isSlugShaped) = true) ∧
    validate "Woman Holding Bag!!" = some "woman-holding" := by
  constructor
  · intro tags caption lines
    rw [List.all_eq_true]
    intro s hs
    obtain ⟨hne, hchars, hlen, hcount⟩ := fn_cand_props hs
    unfold isSlugShaped
    simp only [Bool.and_eq_true]
    refine ⟨⟨?_, ?_⟩, ?_⟩
    · rw [List.all_eq_true]
      exact hchars
    · simpa using hlen
    · simpa using hcount
  · decide

/-- C4: in detailed mode every recognized line carries a confidence and a
bounding box; in fast mode the lines carry only their text, with no
confidence and no box.  (The degraded error case yields no lines at all, so
the properties hold vacuously there.) -/
theorem C4_mode_determines_fields :
    ∀ (ocrRes : Except Unit (List EngineLine)),
      ((run_ocr "detailed" ocrRes).1.all
        (fun tl => tl.confidence.isSome && tl.box.isSome)) = true ∧
      ((run_ocr "fast" ocrRes).1.all
        (fun tl => tl.confidence.isNone && tl.box.isNone)) = true := by
  intro ocrRes
  cases ocrRes with
  | error e => exact ⟨rfl, rfl⟩
  | ok engine =>
    constructor
    · unfold run_ocr
      dsimp only
      rw [if_pos rfl]
      dsimp only
      unfold process_image_from_cv_detailed
      rw [List.all_eq_true]
      intro tl htl
      rcases List.mem_map.mp htl with ⟨e, he, heq⟩
      subst heq
      rfl
    · unfold run_ocr
      dsimp only
      rw [if_neg (by decide : ¬ ("fast" : String) = "detailed")]
      dsimp only
      rw [List.all_eq_true]
      intro tl htl
      rcases List.mem_filterMap.mp htl with ⟨l, hl, heq⟩
      by_cases hle : l.isEmpty = true
      · rw [if_pos hle] at heq
        exact absurd heq (by simp)
      · rw [if_neg hle] at heq
        simp only [Option.some.injEq] at heq
        subst heq
        rfl

/-- C5: when the captioner fails on every call, the pipeline still returns a
complete response whose raw caption is empty and whose filename and alt text
are nonempty; the response is exactly the one computed from the remaining
signals with an empty caption, so the error never propagates. -/
theorem C5_captioner_fault_isolated :
    ∀ (mode : String) (ocrRes : Except Unit (List EngineLine))
      (tagRes : Except Unit (List String)) (e : Unit),
      (analyze_response mode ocrRes (.error e) tagRes).raw_caption = "" ∧
      (analyze_response mode ocrRes (.error e) tagRes).filename ≠ "" ∧
      (analyze_response mode ocrRes (.error e) tagRes).alt_text ≠ "" ∧
      analyze_response mode ocrRes (.error e) tagRes
        = analyze_response mode ocrRes (.ok "") tagRes := by
  intro mode ocrRes tagRes e
  refine ⟨rfl, ?_, ?_, rfl⟩
  · exact merge_head_fn_ne _ _ _
  · exact merge_head_alt_ne _ _ _

/-- C3: starting from the empty cache, capacity-plus-one requests with
pairwise distinct fingerprints leave exactly the last hundred entries: only
the first-inserted entry is evicted, a lookup for it misses, every other
fingerprint still hits with its stored response; and a hit leaves the cache
completely unchanged, so interleaved lookups never promote an entry. -/
theorem C3_cache_fifo_eviction {α : Type} :
    (∀ (p0 : Nat × α) (rest : List (Nat × α)),
      ((p0 :: rest).map Prod.fst).Nodup →
      (p0 :: rest).length = CACHE_MAX_SIZE + 1 →
      List.foldl (fun acc q => analyzeCacheStep acc q.1 q.2) [] (p0 :: rest)
          = rest ∧
      cacheLookup
        (List.foldl (fun acc q => analyzeCacheStep acc q.1 q.2) [] (p0 :: rest))
        p0.1 = none ∧
      (∀ q ∈ rest,
        cacheLookup
          (List.foldl (fun acc q => analyzeCacheStep acc q.1 q.2) [] (p0 :: rest))
          q.1 = some q.2)) ∧
    (∀ (c : Cache α) (k : Nat) (v : α),
      (cacheLookup c k).isSome → analyzeCacheStep c k v = c) := by
  constructor
  · intro p0 rest hnd hlen
    have hfin : List.foldl (fun acc q => analyzeCacheStep acc q.1 q.2) []
        (p0 :: rest) = rest := by
      have h := cache_fifo_final (p0 :: rest) hnd hlen
      simpa using h
    have hnd1 : (p0.1 :: rest.map Prod.fst).Nodup := by
      rwa [List.map_cons] at hnd
    refine ⟨hfin, ?_, ?_⟩
    · rw [hfin]
      exact cacheLookup_eq_none_of_not_mem (List.nodup_cons.mp hnd1).1
    · intro q hq
      rw [hfin]
      exact cacheLookup_mem (List.nodup_cons.mp hnd1).2 hq
  · exact fun c k v h => cache_hit_no_change c k v h

/-- C3 witness: 101 concrete distinct fingerprints 0..100 (with values equal
to their keys) leave entries 1..100; and a concrete hit on a one-entry cache
leaves it unchanged. -/
theorem C3_cache_fifo_eviction_witness :
    (List.foldl (fun acc q => analyzeCacheStep acc q.1 q.2) []
        ((0, 0) :: (List.range 100).map (fun i => (i + 1, i + 1))) =
      (List.range 100).map (fun i => (i + 1, i + 1))) ∧
    analyzeCacheStep [(5, 7)] 5 9 = [(5, 7)] := by
  refine ⟨((C3_cache_fifo_eviction (α := Nat)).1 (0, 0)
      ((List.range 100).map (fun i => (i + 1, i + 1)))
      (by decide) (by decide)).1,
    (C3_cache_fifo_eviction (α := Nat)).2 [(5, 7)] 5 9 (by decide)⟩

end EmailHelper
